import Mathlib

/-!
Shallow embedding of `gosnomer.py`, the Russian vehicle plate normalizer.
Strings are modelled as `List Char`; Python exceptions become an `Err`
inductive carried in `Except`.  Python's iteration over the `found_fmts`
set (`next(iter(possible))`) is process-deterministic but hash-seed
dependent, so it is modelled by an explicit parameter
`pick : List (List Char) → Option (List Char)` (returning `none` exactly
when `next` would raise `StopIteration` on an empty set).
-/

namespace Gosnomer

/-- Error taxonomy: one constructor per `ValueError` raised by the source,
plus `StopIter`/`IndexOob` for the Python runtime errors that `next` on an
empty iterator and out-of-range string indexing would raise. -/
inductive Err where
  | InvalidPreferredFormat : List (List Char) → Err
  | InvalidCharacter : Char → Err
  | NoMatchingFormat : List Char → Err
  | AllZeroSequence : Err
  | LeadingZeroRegion : Err
  | StopIter : Err
  | IndexOob : Err
  deriving DecidableEq, Repr

/-- Source line 14: `_repl_old = "ABCEHIKMOPTXYЗ"` (Latin letters plus Cyrillic З). -/
def _repl_old : List Char := "ABCEHIKMOPTXYЗ".toList

/-- Source line 15: `_repl_new = "АВСЕН1КМОРТХУ3"` (Cyrillic letters plus digits). -/
def _repl_new : List Char := "АВСЕН1КМОРТХУ3".toList

/-- Source line 16: the substitution pairs.  The Python value is a `set`
iterated in unspecified order; since no replacement output occurs among the
replaced characters the order is irrelevant (proved in `foldl_repl_eq_map`),
so the zip order is used here. -/
def _repl_tuples : List (Char × Char) := _repl_old.zip _repl_new

/-- Source line 18: the 12 letters permitted by the standard. -/
def ALLOWED_LETTERS : List Char := "АВЕКМНОРСТУХ".toList

/-- Source line 19: the 10 permitted digits. -/
def ALLOWED_NUMBERS : List Char := "0123456789".toList

/-- Source line 20: union of letters and digits. -/
def ALLOWED_SYMBOLS : List Char := ALLOWED_LETTERS ++ ALLOWED_NUMBERS

/-- Source lines 29-43: the closed canonical format set (a Python `set`,
modelled as a list; only membership matters). -/
def ALLOWED_FORMATS : List (List Char) :=
  ["X999XX99".toList, "X999XX999".toList, "XX99999".toList,
   "XX999999".toList, "9999XX99".toList, "XX99XX99".toList]

/-- Source lines 261-262: `s[:i] + new_char + s[i+1:]` with Python slicing
semantics (an index past the end appends). -/
def repl_char (s : List Char) (i : Nat) (c : Char) : List Char :=
  s.take i ++ c :: s.drop (i + 1)

/-- Model of Python `str.upper` on the character ranges this program can
meet: ASCII lowercase and the basic Cyrillic lowercase block. -/
def upperChar (c : Char) : Char :=
  if 'a' ≤ c ∧ c ≤ 'z' then Char.ofNat (c.toNat - 32)
  else if 'а' ≤ c ∧ c ≤ 'я' then Char.ofNat (c.toNat - 32)
  else if c = 'ё' then 'Ё'
  else c

/-- Python `str.replace` for single characters (source line 178). -/
def replace_all (s : List Char) (old new : Char) : List Char :=
  s.map fun c => if c = old then new else c

/-- Source lines 172-180: drop spaces (only `" "`, as in
`str.replace(" ", "")`), upper-case, then run every substitution pair. -/
def basic_adjustments (no : List Char) : List Char :=
  _repl_tuples.foldl (fun acc rt => replace_all acc rt.1 rt.2)
    ((no.filter fun c => c ≠ ' ').map upperChar)

/-- Source lines 187-197, per character: `*` for `0`/`О`, `X` for a letter,
`9` for a digit, otherwise the `InvalidCharacter` rejection. -/
def classify (c : Char) : Except Err Char :=
  if c = '0' ∨ c = 'О' then .ok '*'
  else if c ∈ ALLOWED_LETTERS then .ok 'X'
  else if c ∈ ALLOWED_NUMBERS then .ok '9'
  else .error (.InvalidCharacter c)

/-- Source lines 183-199: build the positional mask, stopping at the first
invalid character exactly as the Python loop does. -/
def build_mask (no : List Char) : Except Err (List Char) :=
  match no with
  | [] => .ok []
  | c :: rest =>
    match classify c with
    | .error e => .error e
    | .ok d =>
      match build_mask rest with
      | .error e => .error e
      | .ok m => .ok (d :: m)

/-- Source line 207: indices of the `*` characters of the mask. -/
def asteriskPositions (fmt : List Char) : List Nat :=
  (List.range fmt.length).filter fun i => fmt.getD i ' ' == '*'

/-- Source line 209: the candidate with every `*` resolved to `X`. -/
def starting_fmt (fmt : List Char) : List Char :=
  fmt.map fun c => if c = '*' then 'X' else c

/-- Source lines 217-219: overwrite the given positions with `9`. -/
def applyDigits (s : List Char) (ps : List Nat) : List Char :=
  ps.foldl (fun acc i => repl_char acc i '9') s

/-- Source lines 205-221.  The Python code checks `starting_fmt` and then
every `itertools.combinations` of asterisk positions of sizes `1..k`;
together those are exactly all subsets, i.e. all entries of
`List.sublists`.  A candidate is kept when it lies in the canonical set. -/
def fmt_candidates (fmt : List Char) : List (List Char) :=
  ((asteriskPositions fmt).sublists.map
      (applyDigits (starting_fmt fmt))).filter fun f => decide (f ∈ ALLOWED_FORMATS)

/-- Source lines 202-226: the collected `found_fmts` set, modelled as the
deduplicated candidate list; the `NoMatchingFormat` rejection carries the
mask itself (which already shows `*` at every ambiguous position). -/
def find_possible_formats (fmt : List Char) : Except Err (List (List Char)) :=
  if fmt_candidates fmt = [] then .error (.NoMatchingFormat fmt)
  else .ok (fmt_candidates fmt).dedup

/-- Source lines 229-237: the `for … break … else` returns the first
preference found in `possible`, and otherwise `next(iter(possible))`,
modelled by `pick`. -/
def choose_format (pick : List (List Char) → Option (List Char))
    (prefer possible : List (List Char)) : Option (List Char) :=
  match prefer.find? (fun f => decide (f ∈ possible)) with
  | some f => some f
  | none => pick possible

/-- Loop of source lines 241-244, recursing over the remaining mask with
the current index; `none` models the `IndexError` that `chosen_fmt[i]`
would raise when `i` is out of range. -/
def raGo (chosen : List Char) (acc : List Char) (i : Nat) : List Char → Option (List Char)
  | [] => some acc
  | c :: rest =>
    if c = '*' then
      match chosen[i]? with
      | none => none
      | some cc => raGo chosen (repl_char acc i (if cc = '9' then '0' else 'О')) (i + 1) rest
    else raGo chosen acc (i + 1) rest

/-- Source lines 240-246: rewrite each ambiguous position to `0` or `О`
according to the chosen format. -/
def replace_asterisks_to_chosen_format (no fmt chosen : List Char) : Option (List Char) :=
  raGo chosen no 0 fmt

/-- ASCII decimal digit test, the fragment of the regex class `\d` (and its
complement `\D`) relevant to this program's alphabet. -/
def isDigitChar (c : Char) : Bool := decide ('0' ≤ c) && decide (c ≤ '9')

/-- Match semantics of the source's regex `(^|\D)0+(\D|$)` (line 251): some
window `[i, j]` of `0`s whose left border is the string start or a
non-digit and whose right border is the string end or a non-digit. -/
def hasAllZeroRun (s : List Char) : Bool :=
  (List.range s.length).any fun i => (List.range s.length).any fun j =>
    decide (i ≤ j) &&
    (i == 0 || !(isDigitChar (s.getD (i - 1) ' '))) &&
    (j + 1 == s.length || !(isDigitChar (s.getD (j + 1) ' '))) &&
    ((List.range s.length).all fun k =>
      !(decide (i ≤ k) && decide (k ≤ j)) || (s.getD k ' ' == '0'))

/-- Python `no[-3]`: defined only when the string has at least 3 characters,
otherwise the `IndexError` case. -/
def thirdFromLast (no : List Char) : Option Char :=
  if 3 ≤ no.length then some (no.getD (no.length - 3) ' ') else none

/-- Source lines 249-258: the all-zero-run rejection first, then the region
check guarded by `chosen_fmt.endswith("999")`. -/
def final_checks (no chosen : List Char) : Except Err Unit :=
  if hasAllZeroRun no then .error .AllZeroSequence
  else if List.isSuffixOf ['9', '9', '9'] chosen then
    match thirdFromLast no with
    | none => .error .IndexOob
    | some c => if c = '0' then .error .LeadingZeroRegion else .ok ()
  else .ok ()

/-- Source lines 155-169: `None` becomes `[]`; a non-empty list is checked
against the canonical set, the offending entries (Python's
`set(prefer) - ALLOWED_FORMATS`) modelled as a deduplicated filter. -/
def check_prefer (prefer : Option (List (List Char))) : Except Err (List (List Char)) :=
  match prefer with
  | none => .ok []
  | some p =>
    if p = [] then .ok p
    else if (p.filter fun f => !(decide (f ∈ ALLOWED_FORMATS))).dedup = [] then .ok p
    else .error (.InvalidPreferredFormat ((p.filter fun f => !(decide (f ∈ ALLOWED_FORMATS))).dedup))

/-- Source lines 144-152: the pipeline of `normalize`, in source order. -/
def normalize (pick : List (List Char) → Option (List Char))
    (no : List Char) (prefer : Option (List (List Char))) : Except Err (List Char) :=
  match check_prefer prefer with
  | .error e => .error e
  | .ok pl =>
    let no1 := basic_adjustments no
    match build_mask no1 with
    | .error e => .error e
    | .ok fmt =>
      match find_possible_formats fmt with
      | .error e => .error e
      | .ok possible =>
        match choose_format pick pl possible with
        | none => .error .StopIter
        | some chosen =>
          match replace_asterisks_to_chosen_format no1 fmt chosen with
          | none => .error .IndexOob
          | some no2 =>
            match final_checks no2 chosen with
            | .error e => .error e
            | .ok _ => .ok no2

/-- Concrete model of `next(iter(s))` used for witnesses: take the head of
the admissible list. -/
def headPick (l : List (List Char)) : Option (List Char) := l.head?

/-- Claim C2's wording: a format matches a mask when it has the mask's
length, every LETTER position is a LETTER slot, every DIGIT position a
DIGIT slot, and each AMBIGUOUS position is either. -/
def maskMatches (fmt f : List Char) : Bool :=
  (f.length == fmt.length) &&
  (List.range fmt.length).all fun i =>
    (if fmt.getD i ' ' = 'X' then f.getD i ' ' == 'X'
     else if fmt.getD i ' ' = '9' then f.getD i ' ' == '9'
     else if fmt.getD i ' ' = '*' then (f.getD i ' ' == 'X' || f.getD i ' ' == '9')
     else true)

/-- Claim C3's wording: some maximal run of digit characters, bounded by
non-digit characters or the string edges, consists entirely of zeros. -/
def specAllZeroRun (s : List Char) : Bool :=
  (List.range s.length).any fun i => (List.range s.length).any fun j =>
    decide (i ≤ j) &&
    ((List.range s.length).all fun k =>
      !(decide (i ≤ k) && decide (k ≤ j)) || isDigitChar (s.getD k ' ')) &&
    (i == 0 || !(isDigitChar (s.getD (i - 1) ' '))) &&
    (j + 1 == s.length || !(isDigitChar (s.getD (j + 1) ' '))) &&
    ((List.range s.length).all fun k =>
      !(decide (i ≤ k) && decide (k ≤ j)) || (s.getD k ' ' == '0'))

/-- Characters the Mask Builder classifies as ambiguous (claim C9's wording). -/
def ambiguousChar (c : Char) : Bool := c == '0' || c == 'О'

/-- Mask alphabet: the three symbols a mask may contain (claim C2). -/
def isMaskChar (c : Char) : Bool := c == 'X' || c == '9' || c == '*'

/-- Claim C6's substitution table, written charwise in the table's order:
`A→А, B→В, C→С, E→Е, H→Н, I→1, K→К, M→М, O→О, P→Р, T→Т, X→Х, Y→У, З→3`;
a character not covered passes through unchanged. -/
def substChar (c : Char) : Char :=
  if c = 'A' then 'А'
  else if c = 'B' then 'В'
  else if c = 'C' then 'С'
  else if c = 'E' then 'Е'
  else if c = 'H' then 'Н'
  else if c = 'I' then '1'
  else if c = 'K' then 'К'
  else if c = 'M' then 'М'
  else if c = 'O' then 'О'
  else if c = 'P' then 'Р'
  else if c = 'T' then 'Т'
  else if c = 'X' then 'Х'
  else if c = 'Y' then 'У'
  else if c = 'З' then '3'
  else c

/-- Claim C6 as stated: the sanitizer removes ALL whitespace characters,
upper-cases, then applies the substitution table. -/
def claimSanitize (no : List Char) : List Char :=
  ((no.filter fun c => !c.isWhitespace).map upperChar).map substChar

/-- Reified character at an ambiguous position, per the chosen format. -/
def reifChar (chosen : List Char) (j : Nat) : Char :=
  if chosen.getD j ' ' = '9' then '0' else 'О'

instance {e a : Type} [DecidableEq e] [DecidableEq a] : DecidableEq (Except e a) :=
  fun x y =>
  match x, y with
  | .ok u, .ok v =>
    if h : u = v then isTrue (by rw [h])
    else isFalse (by intro hc; injection hc; contradiction)
  | .error u, .error v =>
    if h : u = v then isTrue (by rw [h])
    else isFalse (by intro hc; injection hc; contradiction)
  | .ok u, .error v => isFalse (by intro hc; injection hc)
  | .error u, .ok v => isFalse (by intro hc; injection hc)

/-!  Infrastructure lemmas about list surgery. -/

lemma repl_char_eq_set {s : List Char} {i : Nat} (h : i < s.length) (c : Char) :
    repl_char s i c = s.set i c := by
  rw [repl_char, List.set_eq_take_append_cons_drop, if_pos h]

lemma repl_char_length {s : List Char} {i : Nat} (h : i < s.length) (c : Char) :
    (repl_char s i c).length = s.length := by
  rw [repl_char_eq_set h]; simp

lemma repl_char_getD {s : List Char} {i : Nat} (h : i < s.length) (c : Char)
    (j : Nat) (d : Char) :
    (repl_char s i c).getD j d = if j = i then c else s.getD j d := by
  rw [repl_char_eq_set h]
  by_cases hji : j = i
  · subst hji
    simp [List.getD_eq_getElem?_getD, List.getElem?_set_self h]
  · simp [hji, List.getD_eq_getElem?_getD, List.getElem?_set_ne (Ne.symm hji)]

lemma getD_map_range (n : Nat) (f : Nat → Char) (j : Nat) (d : Char) :
    ((List.range n).map f).getD j d = if j < n then f j else d := by
  by_cases hj : j < n
  · rw [List.getD_eq_getElem?_getD, List.getElem?_map, List.getElem?_range hj]
    simp [hj]
  · rw [List.getD_eq_getElem?_getD, List.getElem?_eq_none (by simpa using Nat.le_of_not_lt hj)]
    simp [hj]

lemma ext_getD {l₁ l₂ : List Char} (hl : l₁.length = l₂.length)
    (h : ∀ j, l₁.getD j ' ' = l₂.getD j ' ') : l₁ = l₂ := by
  apply List.ext_getElem hl
  intro i h1 h2
  have hi := h i
  rwa [List.getD_eq_getElem l₁ ' ' h1, List.getD_eq_getElem l₂ ' ' h2] at hi

lemma map_range_getD (l : List Char) (d : Char) :
    (List.range l.length).map (fun j => l.getD j d) = l := by
  apply List.ext_getElem (by simp)
  intro i h1 h2
  simp [List.getElem?_eq_getElem h2]

lemma applyDigits_cons (s : List Char) (p : Nat) (ps : List Nat) :
    applyDigits s (p :: ps) = applyDigits (repl_char s p '9') ps := by
  simp [applyDigits]

lemma applyDigits_length : ∀ (ps : List Nat) (s : List Char),
    (∀ p ∈ ps, p < s.length) → (applyDigits s ps).length = s.length := by
  intro ps
  induction ps with
  | nil => intro s _; simp [applyDigits]
  | cons p ps ih =>
    intro s hb
    have hp : p < s.length := hb p (by simp)
    rw [applyDigits_cons, ih _ (by
      intro q hq
      rw [repl_char_length hp]
      exact hb q (by simp [hq])), repl_char_length hp]

lemma applyDigits_getD : ∀ (ps : List Nat) (s : List Char),
    (∀ p ∈ ps, p < s.length) → ∀ j d,
    (applyDigits s ps).getD j d = if j ∈ ps then '9' else s.getD j d := by
  intro ps
  induction ps with
  | nil => intro s _ j d; simp [applyDigits]
  | cons p ps ih =>
    intro s hb j d
    have hp : p < s.length := hb p (by simp)
    have hb2 : ∀ q ∈ ps, q < (repl_char s p '9').length := by
      intro q hq
      rw [repl_char_length hp]
      exact hb q (by simp [hq])
    rw [applyDigits_cons, ih _ hb2 j d, repl_char_getD hp]
    by_cases hjs : j ∈ ps
    · simp [hjs]
    · by_cases hjp : j = p <;> simp [hjs, hjp]

lemma raGo_nil (chosen acc : List Char) (i : Nat) : raGo chosen acc i [] = some acc := rfl

lemma raGo_cons_star_some {chosen : List Char} {i : Nat} {cc : Char}
    (acc rest : List Char) (h : chosen[i]? = some cc) :
    raGo chosen acc i ('*' :: rest) =
      raGo chosen (repl_char acc i (if cc = '9' then '0' else 'О')) (i + 1) rest := by
  simp [raGo, h]

lemma raGo_cons_star_none {chosen : List Char} {i : Nat}
    (acc rest : List Char) (h : chosen[i]? = none) :
    raGo chosen acc i ('*' :: rest) = none := by
  simp [raGo, h]

lemma raGo_cons_other {chosen acc rest : List Char} {i : Nat} {c : Char} (hc : c ≠ '*') :
    raGo chosen acc i (c :: rest) = raGo chosen acc (i + 1) rest := by
  simp [raGo, hc]

lemma raGo_eq (chosen : List Char) (fmtR : List Char) : ∀ (acc : List Char) (i : Nat),
    i + fmtR.length = acc.length →
    (∀ k, k < fmtR.length → fmtR.getD k ' ' = '*' → i + k < chosen.length) →
    raGo chosen acc i fmtR = some ((List.range acc.length).map fun j =>
      if i ≤ j ∧ fmtR.getD (j - i) ' ' = '*' then reifChar chosen j else acc.getD j ' ') := by
  induction fmtR with
  | nil =>
    intro acc i hlen hb
    rw [raGo_nil]
    congr 1
    apply ext_getD (by simp)
    intro j
    rw [getD_map_range]
    by_cases hj : j < acc.length
    · rw [if_pos hj, if_neg (by simp)]
    · rw [if_neg hj, List.getD_eq_default _ _ (Nat.le_of_not_lt hj)]
  | cons c rest ih =>
    intro acc i hlen hb
    simp only [List.length_cons] at hlen
    by_cases hc : c = '*'
    · subst hc
      have hi : i < chosen.length := by simpa using hb 0 (by simp) (by simp)
      have hacc : i < acc.length := by omega
      rw [raGo_cons_star_some acc rest (List.getElem?_eq_getElem hi)]
      have hlen2 : (i + 1) + rest.length =
          (repl_char acc i (if chosen[i] = '9' then '0' else 'О')).length := by
        rw [repl_char_length hacc]; omega
      have hb2 : ∀ k, k < rest.length → rest.getD k ' ' = '*' → (i + 1) + k < chosen.length := by
        intro k hk hst
        have := hb (k + 1) (by simpa using Nat.succ_lt_succ hk) (by simpa using hst)
        omega
      rw [ih _ _ hlen2 hb2, repl_char_length hacc]
      congr 1
      apply ext_getD (by simp)
      intro j
      rw [getD_map_range, getD_map_range]
      by_cases hj : j < acc.length
      · rw [if_pos hj, if_pos hj]
        rcases Nat.lt_trichotomy j i with hlt | heq | hgt
        · have hC1 : ¬ (i + 1 ≤ j ∧ rest.getD (j - (i + 1)) ' ' = '*') :=
            fun hand => absurd hand.1 (by omega)
          have hC2 : ¬ (i ≤ j ∧ ('*' :: rest).getD (j - i) ' ' = '*') :=
            fun hand => absurd hand.1 (by omega)
          have hne : ¬ (j = i) := by omega
          rw [if_neg hC1, if_neg hC2, repl_char_getD hacc, if_neg hne]
        · subst heq
          have hC1 : ¬ (j + 1 ≤ j ∧ rest.getD (j - (j + 1)) ' ' = '*') :=
            fun hand => absurd hand.1 (by omega)
          have hC2 : j ≤ j ∧ ('*' :: rest).getD (j - j) ' ' = '*' := by
            refine ⟨Nat.le_refl j, ?_⟩
            have h0 : j - j = 0 := by omega
            rw [h0, List.getD_cons_zero]
          rw [if_neg hC1, if_pos hC2, repl_char_getD hacc, if_pos rfl, reifChar,
            List.getD_eq_getElem chosen ' ' hi]
        · have hsub : j - i = (j - (i + 1)) + 1 := by omega
          have hne : ¬ (j = i) := by omega
          by_cases hP : rest.getD (j - (i + 1)) ' ' = '*'
          · have hC1 : i + 1 ≤ j ∧ rest.getD (j - (i + 1)) ' ' = '*' := ⟨by omega, hP⟩
            have hC2 : i ≤ j ∧ ('*' :: rest).getD (j - i) ' ' = '*' := by
              refine ⟨by omega, ?_⟩
              rw [hsub, List.getD_cons_succ]
              exact hP
            rw [if_pos hC1, if_pos hC2]
          · have hC1 : ¬ (i + 1 ≤ j ∧ rest.getD (j - (i + 1)) ' ' = '*') :=
              fun hand => hP hand.2
            have hC2 : ¬ (i ≤ j ∧ ('*' :: rest).getD (j - i) ' ' = '*') := by
              intro hand
              apply hP
              have h2 := hand.2
              rwa [hsub, List.getD_cons_succ] at h2
            rw [if_neg hC1, if_neg hC2, repl_char_getD hacc, if_neg hne]
      · rw [if_neg hj, if_neg hj]
    · rw [raGo_cons_other hc]
      have hlen2 : (i + 1) + rest.length = acc.length := by omega
      have hb2 : ∀ k, k < rest.length → rest.getD k ' ' = '*' → (i + 1) + k < chosen.length := by
        intro k hk hst
        have := hb (k + 1) (by simpa using Nat.succ_lt_succ hk) (by simpa using hst)
        omega
      rw [ih _ _ hlen2 hb2]
      congr 1
      apply ext_getD (by simp)
      intro j
      rw [getD_map_range, getD_map_range]
      by_cases hj : j < acc.length
      · rw [if_pos hj, if_pos hj]
        rcases Nat.lt_trichotomy j i with hlt | heq | hgt
        · have hC1 : ¬ (i + 1 ≤ j ∧ rest.getD (j - (i + 1)) ' ' = '*') :=
            fun hand => absurd hand.1 (by omega)
          have hC2 : ¬ (i ≤ j ∧ (c :: rest).getD (j - i) ' ' = '*') :=
            fun hand => absurd hand.1 (by omega)
          rw [if_neg hC1, if_neg hC2]
        · subst heq
          have hC1 : ¬ (j + 1 ≤ j ∧ rest.getD (j - (j + 1)) ' ' = '*') :=
            fun hand => absurd hand.1 (by omega)
          have hC2 : ¬ (j ≤ j ∧ (c :: rest).getD (j - j) ' ' = '*') := by
            intro hand
            have h2 := hand.2
            have h0 : j - j = 0 := by omega
            rw [h0, List.getD_cons_zero] at h2
            exact hc h2
          rw [if_neg hC1, if_neg hC2]
        · have hsub : j - i = (j - (i + 1)) + 1 := by omega
          by_cases hP : rest.getD (j - (i + 1)) ' ' = '*'
          · have hC1 : i + 1 ≤ j ∧ rest.getD (j - (i + 1)) ' ' = '*' := ⟨by omega, hP⟩
            have hC2 : i ≤ j ∧ (c :: rest).getD (j - i) ' ' = '*' := by
              refine ⟨by omega, ?_⟩
              rw [hsub, List.getD_cons_succ]
              exact hP
            rw [if_pos hC1, if_pos hC2]
          · have hC1 : ¬ (i + 1 ≤ j ∧ rest.getD (j - (i + 1)) ' ' = '*') :=
              fun hand => hP hand.2
            have hC2 : ¬ (i ≤ j ∧ (c :: rest).getD (j - i) ' ' = '*') := by
              intro hand
              apply hP
              have h2 := hand.2
              rwa [hsub, List.getD_cons_succ] at h2
            rw [if_neg hC1, if_neg hC2]
      · rw [if_neg hj, if_neg hj]

lemma raGo_some_bound (chosen : List Char) : ∀ (fmtR acc : List Char) (i : Nat)
    (t : List Char), raGo chosen acc i fmtR = some t →
    ∀ k, k < fmtR.length → fmtR.getD k ' ' = '*' → i + k < chosen.length := by
  intro fmtR
  induction fmtR with
  | nil =>
    intro acc i t _ k hk
    simp at hk
  | cons c rest ih =>
    intro acc i t hra k hk hst
    by_cases hc : c = '*'
    · subst hc
      cases hcc : chosen[i]? with
      | none => rw [raGo_cons_star_none acc rest hcc] at hra; exact absurd hra (by simp)
      | some cc =>
        rw [raGo_cons_star_some acc rest hcc] at hra
        cases k with
        | zero =>
          have : i < chosen.length := by
            by_contra hge
            rw [List.getElem?_eq_none (Nat.le_of_not_lt hge)] at hcc
            exact absurd hcc (by simp)
          omega
        | succ k2 =>
          have := ih _ _ _ hra k2 (by simpa using Nat.lt_of_succ_lt_succ hk)
            (by simpa using hst)
          omega
    · rw [raGo_cons_other hc] at hra
      cases k with
      | zero => rw [List.getD_cons_zero] at hst; exact absurd hst hc
      | succ k2 =>
        have := ih _ _ _ hra k2 (by simpa using Nat.lt_of_succ_lt_succ hk)
          (by simpa using hst)
        omega

lemma classify_of_amb {c : Char} (h : c = '0' ∨ c = 'О') : classify c = .ok '*' := by
  rw [classify, if_pos h]

lemma classify_of_letter {c : Char} (h1 : ¬ (c = '0' ∨ c = 'О'))
    (h2 : c ∈ ALLOWED_LETTERS) : classify c = .ok 'X' := by
  rw [classify, if_neg h1, if_pos h2]

lemma classify_of_number {c : Char} (h1 : ¬ (c = '0' ∨ c = 'О'))
    (h2 : c ∉ ALLOWED_LETTERS) (h3 : c ∈ ALLOWED_NUMBERS) : classify c = .ok '9' := by
  rw [classify, if_neg h1, if_neg h2, if_pos h3]

lemma classify_cases {c d : Char} (h : classify c = .ok d) :
    (d = '*' ∧ (c = '0' ∨ c = 'О')) ∨
    (d = 'X' ∧ c ∈ ALLOWED_LETTERS ∧ ¬ (c = '0' ∨ c = 'О')) ∨
    (d = '9' ∧ c ∈ ALLOWED_NUMBERS ∧ ¬ (c = '0' ∨ c = 'О') ∧ c ∉ ALLOWED_LETTERS) := by
  rw [classify] at h
  by_cases h1 : c = '0' ∨ c = 'О'
  · rw [if_pos h1] at h
    left
    injection h with h2
    exact ⟨h2.symm, h1⟩
  · rw [if_neg h1] at h
    by_cases h2 : c ∈ ALLOWED_LETTERS
    · rw [if_pos h2] at h
      right; left
      injection h with h3
      exact ⟨h3.symm, h2, h1⟩
    · rw [if_neg h2] at h
      by_cases h3 : c ∈ ALLOWED_NUMBERS
      · rw [if_pos h3] at h
        right; right
        injection h with h4
        exact ⟨h4.symm, h3, h1, h2⟩
      · rw [if_neg h3] at h
        exact absurd h (by simp)

lemma build_mask_ok : ∀ (no m : List Char), build_mask no = .ok m →
    no.length = m.length ∧
      ∀ j, j < no.length → classify (no.getD j ' ') = .ok (m.getD j ' ') := by
  intro no
  induction no with
  | nil =>
    intro m h
    simp only [build_mask] at h
    injection h with h2
    subst h2
    exact ⟨rfl, fun j hj => absurd hj (by simp)⟩
  | cons c rest ih =>
    intro m h
    rw [build_mask] at h
    cases hc : classify c with
    | error e => rw [hc] at h; exact absurd h (by simp)
    | ok d =>
      rw [hc] at h
      cases hr : build_mask rest with
      | error e =>
        simp only [hr] at h
        exact absurd h (by simp)
      | ok m2 =>
        simp only [hr] at h
        injection h with h2
        subst h2
        obtain ⟨ihl, ihp⟩ := ih m2 hr
        refine ⟨by simp [ihl], ?_⟩
        intro j hj
        cases j with
        | zero => simpa using hc
        | succ j2 =>
          rw [List.getD_cons_succ, List.getD_cons_succ]
          exact ihp j2 (by simpa using hj)

lemma build_mask_construct : ∀ (no m : List Char), no.length = m.length →
    (∀ j, j < no.length → classify (no.getD j ' ') = .ok (m.getD j ' ')) →
    build_mask no = .ok m := by
  intro no
  induction no with
  | nil =>
    intro m hl _
    cases m with
    | nil => rfl
    | cons d m2 => simp at hl
  | cons c rest ih =>
    intro m hl hp
    cases m with
    | nil => simp at hl
    | cons d m2 =>
      have h0 : classify c = .ok d := by simpa using hp 0 (by simp)
      have hr : build_mask rest = .ok m2 := by
        apply ih
        · simpa using hl
        · intro j hj
          have := hp (j + 1) (by simpa using Nat.succ_lt_succ hj)
          simpa using this
      rw [build_mask, h0, hr]

lemma mem_asteriskPositions {fmt : List Char} {i : Nat} :
    i ∈ asteriskPositions fmt ↔ (i < fmt.length ∧ fmt.getD i ' ' = '*') := by
  simp [asteriskPositions, List.mem_filter, List.mem_range]

lemma starting_fmt_length (fmt : List Char) : (starting_fmt fmt).length = fmt.length := by
  simp [starting_fmt]

lemma starting_fmt_getD (fmt : List Char) (j : Nat) :
    (starting_fmt fmt).getD j ' ' =
      (if fmt.getD j ' ' = '*' then 'X' else fmt.getD j ' ') := by
  rw [starting_fmt, List.getD_eq_getElem?_getD, List.getElem?_map,
    List.getD_eq_getElem?_getD]
  cases h : fmt[j]? with
  | none => simp
  | some a => simp

lemma maskMatches_iff (fmt f : List Char) :
    maskMatches fmt f = true ↔
      (f.length = fmt.length ∧ ∀ i, i < fmt.length →
        ((fmt.getD i ' ' = 'X' → f.getD i ' ' = 'X') ∧
         (fmt.getD i ' ' = '9' → f.getD i ' ' = '9') ∧
         (fmt.getD i ' ' = '*' → (f.getD i ' ' = 'X' ∨ f.getD i ' ' = '9')))) := by
  rw [maskMatches]
  simp only [Bool.and_eq_true, beq_iff_eq, List.all_eq_true, List.mem_range]
  constructor
  · rintro ⟨hl, hall⟩
    refine ⟨hl, fun i hi => ?_⟩
    have hx := hall i hi
    refine ⟨fun hA => ?_, fun hB => ?_, fun hC => ?_⟩
    · rw [if_pos hA] at hx; simpa using hx
    · rw [if_neg (by rw [hB]; decide), if_pos hB] at hx; simpa using hx
    · rw [if_neg (by rw [hC]; decide), if_neg (by rw [hC]; decide), if_pos hC] at hx
      simpa using hx
  · rintro ⟨hl, hall⟩
    refine ⟨hl, fun i hi => ?_⟩
    obtain ⟨hX, h9, hS⟩ := hall i hi
    by_cases hA : fmt.getD i ' ' = 'X'
    · rw [if_pos hA]; simpa using hX hA
    · rw [if_neg hA]
      by_cases hB : fmt.getD i ' ' = '9'
      · rw [if_pos hB]; simpa using h9 hB
      · rw [if_neg hB]
        by_cases hC : fmt.getD i ' ' = '*'
        · rw [if_pos hC]
          rcases hS hC with h | h <;> rw [h] <;> decide
        · rw [if_neg hC]

lemma isMaskChar_iff {c : Char} : isMaskChar c = true ↔ (c = 'X' ∨ c = '9' ∨ c = '*') := by
  simp [isMaskChar, or_assoc]

lemma getD_mem_of_lt {l : List Char} {i : Nat} (h : i < l.length) : l.getD i ' ' ∈ l := by
  rw [List.getD_eq_getElem l ' ' h]
  exact List.getElem_mem h

lemma mem_cands_iff (fmt f : List Char) (hm : ∀ c ∈ fmt, isMaskChar c = true) :
    f ∈ (asteriskPositions fmt).sublists.map (applyDigits (starting_fmt fmt)) ↔
      maskMatches fmt f = true := by
  rw [maskMatches_iff]
  constructor
  · intro hmem
    rw [List.mem_map] at hmem
    obtain ⟨ps, hps, hf⟩ := hmem
    rw [List.mem_sublists] at hps
    have hbound : ∀ p ∈ ps, p < (starting_fmt fmt).length := by
      intro p hp
      have hmem2 := hps.subset hp
      rw [mem_asteriskPositions] at hmem2
      rw [starting_fmt_length]
      exact hmem2.1
    subst hf
    have hstar_of_mem : ∀ i, i ∈ ps → fmt.getD i ' ' = '*' := by
      intro i hip
      have h2 := hps.subset hip
      rw [mem_asteriskPositions] at h2
      exact h2.2
    constructor
    · rw [applyDigits_length ps _ hbound, starting_fmt_length]
    · intro i hi
      have hgd := applyDigits_getD ps (starting_fmt fmt) hbound i ' '
      refine ⟨fun hA => ?_, fun hB => ?_, fun hC => ?_⟩
      · have hnotin : i ∉ ps := fun hip =>
          absurd ((hstar_of_mem i hip).symm.trans hA) (by decide)
        rw [hgd, if_neg hnotin, starting_fmt_getD, if_neg (by rw [hA]; decide), hA]
      · have hnotin : i ∉ ps := fun hip =>
          absurd ((hstar_of_mem i hip).symm.trans hB) (by decide)
        rw [hgd, if_neg hnotin, starting_fmt_getD, if_neg (by rw [hB]; decide), hB]
      · by_cases hip : i ∈ ps
        · right
          rw [hgd, if_pos hip]
        · left
          rw [hgd, if_neg hip, starting_fmt_getD, if_pos hC]
  · rintro ⟨hl, hall⟩
    rw [List.mem_map]
    have hsub : List.Sublist ((asteriskPositions fmt).filter fun i => f.getD i ' ' == '9')
        (asteriskPositions fmt) := List.filter_sublist _
    have hbound : ∀ p ∈ ((asteriskPositions fmt).filter fun i => f.getD i ' ' == '9'),
        p < (starting_fmt fmt).length := by
      intro p hp
      have h2 := hsub.subset hp
      rw [mem_asteriskPositions] at h2
      rw [starting_fmt_length]
      exact h2.1
    refine ⟨(asteriskPositions fmt).filter (fun i => f.getD i ' ' == '9'),
      List.mem_sublists.mpr hsub, ?_⟩
    apply ext_getD
    · rw [applyDigits_length _ _ hbound, starting_fmt_length, hl]
    · intro j
      rw [applyDigits_getD _ _ hbound j ' ']
      by_cases hjps : j ∈ ((asteriskPositions fmt).filter fun i => f.getD i ' ' == '9')
      · rw [if_pos hjps]
        have h2 := List.mem_filter.mp hjps
        have h9 : f.getD j ' ' = '9' := by simpa using h2.2
        exact h9.symm
      · rw [if_neg hjps, starting_fmt_getD]
        by_cases hjlen : j < fmt.length
        · have hmc := hm (fmt.getD j ' ') (getD_mem_of_lt hjlen)
          rw [isMaskChar_iff] at hmc
          obtain ⟨hX, h9, hS⟩ := hall j hjlen
          rcases hmc with hA | hB | hC
          · rw [if_neg (by rw [hA]; decide), hA]
            exact (hX hA).symm
          · rw [if_neg (by rw [hB]; decide), hB]
            exact (h9 hB).symm
          · have hne : f.getD j ' ' ≠ '9' := by
              intro h9f
              apply hjps
              rw [List.mem_filter]
              exact ⟨mem_asteriskPositions.mpr ⟨hjlen, hC⟩, by simpa using h9f⟩
            rcases hS hC with h | h
            · rw [if_pos hC]
              exact h.symm
            · exact absurd h hne
        · have hfd : fmt.getD j ' ' = ' ' :=
            List.getD_eq_default _ _ (Nat.le_of_not_lt hjlen)
          have hff : f.getD j ' ' = ' ' :=
            List.getD_eq_default _ _ (by rw [hl]; exact Nat.le_of_not_lt hjlen)
          rw [hfd, if_neg (by decide), hff]

lemma mem_fmt_candidates_iff (fmt f : List Char) (hm : ∀ c ∈ fmt, isMaskChar c = true) :
    f ∈ fmt_candidates fmt ↔ (f ∈ ALLOWED_FORMATS ∧ maskMatches fmt f = true) := by
  rw [fmt_candidates, List.mem_filter, mem_cands_iff fmt f hm]
  simp [and_comm]

lemma find_possible_ok_mem_iff (fmt f : List Char) (hm : ∀ c ∈ fmt, isMaskChar c = true) :
    (∃ l, find_possible_formats fmt = .ok l ∧ f ∈ l) ↔
      (f ∈ ALLOWED_FORMATS ∧ maskMatches fmt f = true) := by
  rw [find_possible_formats]
  by_cases hc : fmt_candidates fmt = []
  · rw [if_pos hc]
    constructor
    · rintro ⟨l, hl, _⟩
      exact absurd hl (by simp)
    · intro hyp
      have h2 := (mem_fmt_candidates_iff fmt f hm).mpr hyp
      rw [hc] at h2
      exact absurd h2 (by simp)
  · rw [if_neg hc]
    constructor
    · rintro ⟨l, hl, hfl⟩
      injection hl with h2
      subst h2
      exact (mem_fmt_candidates_iff fmt f hm).mp (List.mem_dedup.mp hfl)
    · intro hyp
      exact ⟨_, rfl, List.mem_dedup.mpr ((mem_fmt_candidates_iff fmt f hm).mpr hyp)⟩

lemma find_possible_error_iff (fmt : List Char) (hm : ∀ c ∈ fmt, isMaskChar c = true) :
    find_possible_formats fmt = .error (.NoMatchingFormat fmt) ↔
      (∀ f ∈ ALLOWED_FORMATS, ¬ maskMatches fmt f = true) := by
  rw [find_possible_formats]
  by_cases hc : fmt_candidates fmt = []
  · rw [if_pos hc]
    constructor
    · intro _ f hAF hmm
      have h2 := (mem_fmt_candidates_iff fmt f hm).mpr ⟨hAF, hmm⟩
      rw [hc] at h2
      exact absurd h2 (by simp)
    · intro _
      rfl
  · rw [if_neg hc]
    constructor
    · intro h
      exact absurd h (by simp)
    · intro hall
      exfalso
      obtain ⟨f, hf⟩ := List.exists_mem_of_ne_nil _ hc
      have h2 := (mem_fmt_candidates_iff fmt f hm).mp hf
      exact hall f h2.1 h2.2

lemma fmt_candidates_shape {fmt f : List Char} (h : f ∈ fmt_candidates fmt) :
    f.length = fmt.length ∧ f ∈ ALLOWED_FORMATS := by
  rw [fmt_candidates, List.mem_filter] at h
  obtain ⟨hmem, hAF⟩ := h
  rw [List.mem_map] at hmem
  obtain ⟨ps, hps, hf⟩ := hmem
  rw [List.mem_sublists] at hps
  have hbound : ∀ p ∈ ps, p < (starting_fmt fmt).length := by
    intro p hp
    have h2 := hps.subset hp
    rw [mem_asteriskPositions] at h2
    rw [starting_fmt_length]
    exact h2.1
  subst hf
  refine ⟨?_, by simpa using hAF⟩
  rw [applyDigits_length ps _ hbound, starting_fmt_length]

lemma find_possible_ok_shape {fmt : List Char} {l : List (List Char)} {f : List Char}
    (hok : find_possible_formats fmt = .ok l) (hf : f ∈ l) :
    f.length = fmt.length ∧ f ∈ ALLOWED_FORMATS := by
  rw [find_possible_formats] at hok
  by_cases hc : fmt_candidates fmt = []
  · rw [if_pos hc] at hok
    exact absurd hok (by simp)
  · rw [if_neg hc] at hok
    injection hok with h2
    subst h2
    exact fmt_candidates_shape (List.mem_dedup.mp hf)

lemma allowed_formats_long : ∀ f ∈ ALLOWED_FORMATS, 7 ≤ f.length := by decide

/-!  Sanitizer lemmas. -/

lemma repl_tuples_chars : _repl_tuples =
    [('A', 'А'), ('B', 'В'), ('C', 'С'), ('E', 'Е'), ('H', 'Н'), ('I', '1'), ('K', 'К'),
     ('M', 'М'), ('O', 'О'), ('P', 'Р'), ('T', 'Т'), ('X', 'Х'), ('Y', 'У'), ('З', '3')] := rfl

lemma foldl_repl_eq_map (table : List (Char × Char)) : ∀ (s : List Char),
    table.foldl (fun acc rt => replace_all acc rt.1 rt.2) s =
      s.map (fun c => table.foldl (fun a rt => if a = rt.1 then rt.2 else a) c) := by
  induction table with
  | nil =>
    intro s
    simp
  | cons t ts ih =>
    intro s
    rw [List.foldl_cons, ih (replace_all s t.1 t.2), replace_all, List.map_map]
    rfl

lemma substChar_eq_foldl (c : Char) :
    _repl_tuples.foldl (fun a rt => if a = rt.1 then rt.2 else a) c = substChar c := by
  by_cases h1 : c = 'A'
  · subst h1; decide
  by_cases h2 : c = 'B'
  · subst h2; decide
  by_cases h3 : c = 'C'
  · subst h3; decide
  by_cases h4 : c = 'E'
  · subst h4; decide
  by_cases h5 : c = 'H'
  · subst h5; decide
  by_cases h6 : c = 'I'
  · subst h6; decide
  by_cases h7 : c = 'K'
  · subst h7; decide
  by_cases h8 : c = 'M'
  · subst h8; decide
  by_cases h9 : c = 'O'
  · subst h9; decide
  by_cases h10 : c = 'P'
  · subst h10; decide
  by_cases h11 : c = 'T'
  · subst h11; decide
  by_cases h12 : c = 'X'
  · subst h12; decide
  by_cases h13 : c = 'Y'
  · subst h13; decide
  by_cases h14 : c = 'З'
  · subst h14; decide
  simp only [repl_tuples_chars, List.foldl_cons, List.foldl_nil, substChar,
    if_neg h1, if_neg h2, if_neg h3, if_neg h4, if_neg h5, if_neg h6, if_neg h7,
    if_neg h8, if_neg h9, if_neg h10, if_neg h11, if_neg h12, if_neg h13, if_neg h14]

lemma basic_adjustments_eq (no : List Char) :
    basic_adjustments no = ((no.filter fun c => c ≠ ' ').map upperChar).map substChar := by
  rw [basic_adjustments, foldl_repl_eq_map]
  simp only [substChar_eq_foldl]

lemma allowed_not_space : ∀ c ∈ ALLOWED_SYMBOLS, ¬ c = ' ' := by decide

lemma allowed_upper_fixed : ∀ c ∈ ALLOWED_SYMBOLS, upperChar c = c := by decide

lemma allowed_subst_fixed : ∀ c ∈ ALLOWED_SYMBOLS, substChar c = c := by decide

lemma hasAllZeroRun_iff (s : List Char) : hasAllZeroRun s = true ↔
    ∃ i j, i ≤ j ∧ j < s.length ∧
      (i = 0 ∨ isDigitChar (s.getD (i - 1) ' ') = false) ∧
      (j + 1 = s.length ∨ isDigitChar (s.getD (j + 1) ' ') = false) ∧
      (∀ k, i ≤ k → k ≤ j → s.getD k ' ' = '0') := by
  rw [hasAllZeroRun]
  simp only [List.any_eq_true, List.mem_range, Bool.and_eq_true, decide_eq_true_eq,
    Bool.or_eq_true, beq_iff_eq, Bool.not_and, Bool.not_eq_true', decide_eq_false_iff_not,
    List.all_eq_true]
  constructor
  · rintro ⟨i, hi, j, hj, ⟨⟨hij, hleft⟩, hright⟩, hD⟩
    refine ⟨i, j, hij, hj, hleft, hright, fun k hik hkj => ?_⟩
    rcases hD k (by omega) with (h | h) | h
    · exact absurd hik h
    · exact absurd hkj h
    · exact h
  · rintro ⟨i, j, hij, hj, hleft, hright, hz⟩
    refine ⟨i, by omega, j, hj, ⟨⟨hij, hleft⟩, hright⟩, fun k hk => ?_⟩
    by_cases hik : i ≤ k
    · by_cases hkj : k ≤ j
      · exact Or.inr (hz k hik hkj)
      · exact Or.inl (Or.inr hkj)
    · exact Or.inl (Or.inl hik)

lemma specAllZeroRun_iff (s : List Char) : specAllZeroRun s = true ↔
    ∃ i j, i ≤ j ∧ j < s.length ∧
      (∀ k, i ≤ k → k ≤ j → isDigitChar (s.getD k ' ') = true) ∧
      (i = 0 ∨ isDigitChar (s.getD (i - 1) ' ') = false) ∧
      (j + 1 = s.length ∨ isDigitChar (s.getD (j + 1) ' ') = false) ∧
      (∀ k, i ≤ k → k ≤ j → s.getD k ' ' = '0') := by
  rw [specAllZeroRun]
  simp only [List.any_eq_true, List.mem_range, Bool.and_eq_true, decide_eq_true_eq,
    Bool.or_eq_true, beq_iff_eq, Bool.not_and, Bool.not_eq_true', decide_eq_false_iff_not,
    List.all_eq_true]
  constructor
  · rintro ⟨i, hi, j, hj, ⟨⟨⟨hij, hdig⟩, hleft⟩, hright⟩, hD⟩
    refine ⟨i, j, hij, hj, fun k hik hkj => ?_, hleft, hright, fun k hik hkj => ?_⟩
    · rcases hdig k (by omega) with (h | h) | h
      · exact absurd hik h
      · exact absurd hkj h
      · exact h
    · rcases hD k (by omega) with (h | h) | h
      · exact absurd hik h
      · exact absurd hkj h
      · exact h
  · rintro ⟨i, j, hij, hj, hdig, hleft, hright, hz⟩
    refine ⟨i, by omega, j, hj, ⟨⟨⟨hij, fun k hk => ?_⟩, hleft⟩, hright⟩, fun k hk => ?_⟩
    · by_cases hik : i ≤ k
      · by_cases hkj : k ≤ j
        · exact Or.inr (hdig k hik hkj)
        · exact Or.inl (Or.inr hkj)
      · exact Or.inl (Or.inl hik)
    · by_cases hik : i ≤ k
      · by_cases hkj : k ≤ j
        · exact Or.inr (hz k hik hkj)
        · exact Or.inl (Or.inr hkj)
      · exact Or.inl (Or.inl hik)

lemma hasAllZero_eq_spec (s : List Char) : hasAllZeroRun s = true ↔ specAllZeroRun s = true := by
  rw [hasAllZeroRun_iff, specAllZeroRun_iff]
  constructor
  · rintro ⟨i, j, hij, hj, hleft, hright, hz⟩
    refine ⟨i, j, hij, hj, fun k hik hkj => ?_, hleft, hright, hz⟩
    rw [hz k hik hkj]
    decide
  · rintro ⟨i, j, hij, hj, _, hleft, hright, hz⟩
    exact ⟨i, j, hij, hj, hleft, hright, hz⟩

lemma final_checks_allzero_iff (no chosen : List Char) :
    final_checks no chosen = .error .AllZeroSequence ↔ specAllZeroRun no = true := by
  rw [final_checks]
  by_cases h : hasAllZeroRun no = true
  · rw [if_pos h]
    simp only [true_iff]
    exact (hasAllZero_eq_spec no).mp h
  · rw [if_neg h]
    constructor
    · intro hcontra
      by_cases h2 : List.isSuffixOf ['9', '9', '9'] chosen = true
      · rw [if_pos h2] at hcontra
        cases h3 : thirdFromLast no with
        | none =>
          rw [h3] at hcontra
          simp at hcontra
        | some c =>
          rw [h3] at hcontra
          by_cases h4 : c = '0'
          · subst h4
            simp at hcontra
          · simp [h4] at hcontra
      · rw [if_neg h2] at hcontra
        simp at hcontra
    · intro hspec
      exact absurd ((hasAllZero_eq_spec no).mpr hspec) h

lemma check_prefer_bad {p : List (List Char)} (hne : p ≠ [])
    (hbad : ∃ f, f ∈ p ∧ f ∉ ALLOWED_FORMATS) :
    check_prefer (some p) =
      .error (.InvalidPreferredFormat
        ((p.filter fun f => !(decide (f ∈ ALLOWED_FORMATS))).dedup)) := by
  obtain ⟨f, hf, hAF⟩ := hbad
  have hmem : f ∈ (p.filter fun f => !(decide (f ∈ ALLOWED_FORMATS))).dedup := by
    rw [List.mem_dedup, List.mem_filter]
    exact ⟨hf, by simp [hAF]⟩
  rw [check_prefer, if_neg hne, if_neg (List.ne_nil_of_mem hmem)]

lemma check_prefer_bad_members (p : List (List Char)) (f : List Char) :
    f ∈ (p.filter fun g => !(decide (g ∈ ALLOWED_FORMATS))).dedup ↔
      (f ∈ p ∧ f ∉ ALLOWED_FORMATS) := by
  rw [List.mem_dedup, List.mem_filter]
  simp

lemma choose_format_first (pick : List (List Char) → Option (List Char))
    (pre rest possible : List (List Char)) (p : List Char)
    (hp : p ∈ possible) (hpre : ∀ q ∈ pre, q ∉ possible) :
    choose_format pick (pre ++ p :: rest) possible = some p := by
  rw [choose_format]
  have h1 : pre.find? (fun f => decide (f ∈ possible)) = none := by
    rw [List.find?_eq_none]
    intro x hx
    simp [hpre x hx]
  have hfind : (pre ++ p :: rest).find? (fun f => decide (f ∈ possible)) = some p := by
    rw [List.find?_append, h1, Option.none_or, List.find?_cons_of_pos _ (by simp [hp])]
  rw [hfind]

lemma choose_format_isSome (pick : List (List Char) → Option (List Char))
    (hval : ∀ l, l ≠ [] → (pick l).isSome = true)
    (prefer possible : List (List Char)) (hne : possible ≠ []) :
    (choose_format pick prefer possible).isSome = true := by
  rw [choose_format]
  cases h : prefer.find? (fun f => decide (f ∈ possible)) with
  | some f => simp
  | none => exact hval possible hne

lemma basic_adjustments_fixed {t : List Char} (h : ∀ c ∈ t, c ∈ ALLOWED_SYMBOLS) :
    basic_adjustments t = t := by
  rw [basic_adjustments_eq]
  have h1 : t.filter (fun c => c ≠ ' ') = t := by
    rw [List.filter_eq_self]
    intro a ha
    simpa using allowed_not_space a (h a ha)
  rw [h1]
  have h2 : t.map upperChar = t := by
    rw [List.map_congr_left (fun a ha => allowed_upper_fixed a (h a ha))]
    exact List.map_id t
  rw [h2]
  rw [List.map_congr_left (fun a ha => allowed_subst_fixed a (h a ha))]
  exact List.map_id t

lemma reifChar_mem (chosen : List Char) (j : Nat) : reifChar chosen j ∈ ALLOWED_SYMBOLS := by
  rw [reifChar]
  by_cases h : chosen.getD j ' ' = '9'
  · rw [if_pos h]; decide
  · rw [if_neg h]; decide

lemma reifChar_amb (chosen : List Char) (j : Nat) :
    reifChar chosen j = '0' ∨ reifChar chosen j = 'О' := by
  rw [reifChar]
  by_cases h : chosen.getD j ' ' = '9'
  · rw [if_pos h]; exact Or.inl rfl
  · rw [if_neg h]; exact Or.inr rfl

lemma normalize_ok_inv {pick : List (List Char) → Option (List Char)}
    {no t : List Char} {prefer : Option (List (List Char))}
    (h : normalize pick no prefer = .ok t) :
    ∃ pl m possible chosen,
      check_prefer prefer = .ok pl ∧
      build_mask (basic_adjustments no) = .ok m ∧
      find_possible_formats m = .ok possible ∧
      choose_format pick pl possible = some chosen ∧
      replace_asterisks_to_chosen_format (basic_adjustments no) m chosen = some t ∧
      final_checks t chosen = .ok () := by
  rw [normalize] at h
  cases h1 : check_prefer prefer with
  | error e =>
    simp only [h1] at h
    exact absurd h (by simp)
  | ok pl =>
    simp only [h1] at h
    cases h2 : build_mask (basic_adjustments no) with
    | error e =>
      simp only [h2] at h
      exact absurd h (by simp)
    | ok m =>
      simp only [h2] at h
      cases h3 : find_possible_formats m with
      | error e =>
        simp only [h3] at h
        exact absurd h (by simp)
      | ok possible =>
        simp only [h3] at h
        cases h4 : choose_format pick pl possible with
        | none =>
          simp only [h4] at h
          exact absurd h (by simp)
        | some chosen =>
          simp only [h4] at h
          cases h5 : replace_asterisks_to_chosen_format (basic_adjustments no) m chosen with
          | none =>
            simp only [h5] at h
            exact absurd h (by simp)
          | some no2 =>
            simp only [h5] at h
            cases h6 : final_checks no2 chosen with
            | error e =>
              simp only [h6] at h
              exact absurd h (by simp)
            | ok u =>
              simp only [h6] at h
              injection h with h7
              subst h7
              cases u
              exact ⟨pl, m, possible, chosen, rfl, rfl, h3, h4, h5, h6⟩

lemma reify_ok_getD {chosen s m t : List Char}
    (hlen : m.length = s.length)
    (h : replace_asterisks_to_chosen_format s m chosen = some t) :
    t.length = s.length ∧
    (∀ j, j < s.length → t.getD j ' ' =
      (if m.getD j ' ' = '*' then reifChar chosen j else s.getD j ' ')) := by
  rw [replace_asterisks_to_chosen_format] at h
  have hbound := raGo_some_bound chosen m s 0 t h
  have heq := raGo_eq chosen m s 0 (by omega) hbound
  rw [heq] at h
  injection h with h2
  subst h2
  constructor
  · simp
  · intro j hj
    rw [getD_map_range, if_pos hj]
    simp only [Nat.zero_le, true_and, Nat.sub_zero]

lemma reify_construct {chosen s m : List Char}
    (hlen : m.length = s.length)
    (hb : ∀ k, k < m.length → m.getD k ' ' = '*' → 0 + k < chosen.length)
    (hfix : ∀ j, j < s.length → m.getD j ' ' = '*' → s.getD j ' ' = reifChar chosen j) :
    replace_asterisks_to_chosen_format s m chosen = some s := by
  rw [replace_asterisks_to_chosen_format, raGo_eq chosen m s 0 (by omega) hb]
  congr 1
  apply ext_getD (by simp)
  intro j
  rw [getD_map_range]
  by_cases hj : j < s.length
  · rw [if_pos hj]
    simp only [Nat.zero_le, true_and, Nat.sub_zero]
    by_cases hst : m.getD j ' ' = '*'
    · rw [if_pos hst]
      exact (hfix j hj hst).symm
    · rw [if_neg hst]
  · rw [if_neg hj, List.getD_eq_default _ _ (Nat.le_of_not_lt hj)]

lemma normalize_ok_struct {pick : List (List Char) → Option (List Char)}
    {no t : List Char} {prefer : Option (List (List Char))}
    (h : normalize pick no prefer = .ok t) :
    ∃ pl m possible chosen,
      check_prefer prefer = .ok pl ∧
      build_mask (basic_adjustments no) = .ok m ∧
      find_possible_formats m = .ok possible ∧
      choose_format pick pl possible = some chosen ∧
      final_checks t chosen = .ok () ∧
      m.length = (basic_adjustments no).length ∧
      t.length = (basic_adjustments no).length ∧
      (∀ k, k < m.length → m.getD k ' ' = '*' → 0 + k < chosen.length) ∧
      (∀ j, j < t.length → t.getD j ' ' =
        (if m.getD j ' ' = '*' then reifChar chosen j
         else (basic_adjustments no).getD j ' ')) := by
  obtain ⟨pl, m, possible, chosen, h1, h2, h3, h4, h5, h6⟩ := normalize_ok_inv h
  have hml : (basic_adjustments no).length = m.length := (build_mask_ok _ _ h2).1
  have hbound := raGo_some_bound chosen m (basic_adjustments no) 0 t h5
  obtain ⟨htl, hget⟩ := reify_ok_getD hml.symm h5
  refine ⟨pl, m, possible, chosen, h1, h2, h3, h4, h6, hml.symm, htl, hbound, ?_⟩
  intro j hj
  exact hget j (by omega)

lemma normalize_ok_chars {pick : List (List Char) → Option (List Char)}
    {no t : List Char} {prefer : Option (List (List Char))}
    (h : normalize pick no prefer = .ok t) : ∀ c ∈ t, c ∈ ALLOWED_SYMBOLS := by
  obtain ⟨pl, m, possible, chosen, h1, h2, h3, h4, h5, hml, htl, hbound, hget⟩ :=
    normalize_ok_struct h
  have hclass := (build_mask_ok _ _ h2).2
  intro c hc
  obtain ⟨j, hjlen, hcj⟩ := List.mem_iff_getElem.mp hc
  have hcd : t.getD j ' ' = c := by
    rw [List.getD_eq_getElem t ' ' hjlen, hcj]
  rw [hget j hjlen] at hcd
  by_cases hst : m.getD j ' ' = '*'
  · rw [if_pos hst] at hcd
    rw [← hcd]
    exact reifChar_mem chosen j
  · rw [if_neg hst] at hcd
    have hcl := hclass j (by omega)
    rw [hcd] at hcl
    rcases classify_cases hcl with ⟨hd, _⟩ | ⟨_, hmem, _⟩ | ⟨_, hmem, _⟩
    · exact absurd hd hst
    · exact List.mem_append.mpr (Or.inl hmem)
    · exact List.mem_append.mpr (Or.inr hmem)

lemma normalize_idem_aux {pick : List (List Char) → Option (List Char)}
    {no t : List Char} (h : normalize pick no none = .ok t) :
    normalize pick t none = .ok t := by
  obtain ⟨pl, m, possible, chosen, h1, h2, h3, h4, h5, h6⟩ := normalize_ok_inv h
  have hpl : pl = [] := by
    rw [check_prefer] at h1
    injection h1 with h7
    exact h7.symm
  subst hpl
  have hchars := normalize_ok_chars h
  have hadj : basic_adjustments t = t := basic_adjustments_fixed hchars
  obtain ⟨hml, hclass⟩ := build_mask_ok _ _ h2
  have hbound := raGo_some_bound chosen m (basic_adjustments no) 0 t h5
  obtain ⟨htl, hget⟩ := reify_ok_getD (by omega) h5
  have hbm2 : build_mask t = .ok m := by
    apply build_mask_construct
    · omega
    · intro j hj
      have hj2 : j < (basic_adjustments no).length := by omega
      rw [hget j hj2]
      by_cases hst : m.getD j ' ' = '*'
      · rw [if_pos hst, hst]
        exact classify_of_amb (reifChar_amb chosen j)
      · rw [if_neg hst]
        exact hclass j hj2
  have hreify2 : replace_asterisks_to_chosen_format t m chosen = some t := by
    apply reify_construct
    · omega
    · exact hbound
    · intro j hj hst
      rw [hget j (by omega), if_pos hst]
  rw [normalize]
  simp only [show check_prefer none = Except.ok [] from rfl, hadj, hbm2, h3, h4,
    hreify2, h6]

/-!  Claim theorems. -/

/-- C1 (code-bug evaluation): the Validator keys its region check on the
chosen format's textual suffix `999`, which also matches the taxi format
`XX99999`, whose region code has 2 digits.  On input `АВ12045` the only
admissible format is `XX99999` — not the 3-digit-region format
`X999XX999` — yet `normalize` rejects with `LeadingZeroRegion`, the error
whose message speaks of the first digit of a THREE-digit region. -/
theorem c1_region_check_fires_on_taxi :
    normalize headPick ("АВ12045".toList) none = .error .LeadingZeroRegion ∧
    build_mask (basic_adjustments ("АВ12045".toList)) = .ok ("XX99*99".toList) ∧
    find_possible_formats ("XX99*99".toList) = .ok ["XX99999".toList] ∧
    "XX99999".toList ≠ "X999XX999".toList := by
  refine ⟨?_, ?_, ?_, ?_⟩ <;> decide

/-- C2: for a well-formed mask (over LETTER, DIGIT, AMBIGUOUS symbols) the
Format Resolver succeeds exactly with the set of canonical formats of the
mask's length matching it positionally — each AMBIGUOUS position free to be
LETTER or DIGIT, all others exact, with every admissible format found —
and fails with `NoMatchingFormat` carrying the mask (ambiguous positions
rendered `*`) iff that set is empty. -/
theorem c2_resolver_complete (fmt : List Char) (hm : ∀ c ∈ fmt, isMaskChar c = true) :
    (∀ f, (∃ l, find_possible_formats fmt = .ok l ∧ f ∈ l) ↔
        (f ∈ ALLOWED_FORMATS ∧ maskMatches fmt f = true)) ∧
    (find_possible_formats fmt = .error (.NoMatchingFormat fmt) ↔
        (∀ f ∈ ALLOWED_FORMATS, ¬ maskMatches fmt f = true)) :=
  ⟨fun f => find_possible_ok_mem_iff fmt f hm, find_possible_error_iff fmt hm⟩

theorem c2_witness :
    find_possible_formats ("9999999".toList) =
      .error (.NoMatchingFormat ("9999999".toList)) :=
  (c2_resolver_complete ("9999999".toList) (by decide)).2.mpr (by decide)

/-- C3: the Validator rejects with `AllZeroSequence` exactly when some
maximal run of digit characters, bounded by non-digits or the string
edges, consists entirely of zeros; since this branch is taken first, a
string violating both checks reports `AllZeroSequence` (the iff holds for
every chosen format, including ones that would also fail the region
check). -/
theorem c3_allzero_rejection (no chosen : List Char) :
    final_checks no chosen = .error .AllZeroSequence ↔ specAllZeroRun no = true :=
  final_checks_allzero_iff no chosen

/-- C4: when some preference entry lies in the admissible set, the Chooser
returns the first such entry in preference order; and with a valid
set-iteration function and a non-empty admissible set it always returns a
format (never fails). -/
theorem c4_chooser_first_preference (pick : List (List Char) → Option (List Char))
    (hval : ∀ l, l ≠ [] → (pick l).isSome = true)
    (pre rest possible : List (List Char)) (p : List Char)
    (hne : possible ≠ []) (hp : p ∈ possible) (hpre : ∀ q ∈ pre, q ∉ possible) :
    choose_format pick (pre ++ p :: rest) possible = some p ∧
    (∀ prefer, (choose_format pick prefer possible).isSome = true) :=
  ⟨choose_format_first pick pre rest possible p hp hpre,
   fun prefer => choose_format_isSome pick hval prefer possible hne⟩

theorem c4_witness :
    choose_format headPick
      ["XX999999".toList, "X999XX99".toList, "XX99XX99".toList]
      ["9999XX99".toList, "X999XX99".toList] = some ("X999XX99".toList) :=
  (c4_chooser_first_preference headPick
    (fun l hl => by
      cases l with
      | nil => exact absurd rfl hl
      | cons a l2 => simp [headPick])
    ["XX999999".toList] ["XX99XX99".toList]
    ["9999XX99".toList, "X999XX99".toList] ("X999XX99".toList)
    (by decide) (by decide) (by decide)).1

/-- C5: a non-empty preference list containing a non-canonical entry makes
`normalize` fail with `InvalidPreferredFormat` carrying exactly the set of
offending entries, and the failure happens before sanitization, mask
building or matching: the error is the same for every input string `no`. -/
theorem c5_invalid_prefer (pick : List (List Char) → Option (List Char))
    (no : List Char) (p : List (List Char)) (hne : p ≠ [])
    (hbad : ∃ f, f ∈ p ∧ f ∉ ALLOWED_FORMATS) :
    normalize pick no (some p) =
      .error (.InvalidPreferredFormat
        ((p.filter fun f => !(decide (f ∈ ALLOWED_FORMATS))).dedup)) ∧
    (∀ f, f ∈ (p.filter fun g => !(decide (g ∈ ALLOWED_FORMATS))).dedup ↔
      (f ∈ p ∧ f ∉ ALLOWED_FORMATS)) := by
  constructor
  · simp only [normalize, check_prefer_bad hne hbad]
  · intro f
    exact check_prefer_bad_members p f

theorem c5_witness :
    normalize headPick ("о001тр98".toList) (some ["99999999".toList]) =
      .error (.InvalidPreferredFormat [("99999999".toList)]) :=
  (c5_invalid_prefer headPick ("о001тр98".toList) ["99999999".toList]
    (by decide) ⟨"99999999".toList, by decide, by decide⟩).1

/-- C6 counterexample: the Input Sanitizer does NOT remove all whitespace —
a tab character survives `basic_adjustments` (the source only strips the
space character), while the claimed sanitizer removes it. -/
theorem c6_counterexample :
    basic_adjustments ['А', '\t', '1'] = ['А', '\t', '1'] ∧
    claimSanitize ['А', '\t', '1'] = ['А', '1'] ∧
    Char.isWhitespace '\t' = true := by
  refine ⟨?_, ?_, ?_⟩ <;> decide

/-- C6 amended: the sanitizer removes exactly the space characters (other
whitespace passes through to be rejected later), upper-cases, then applies
the fixed substitution table charwise — `substChar` maps the fourteen table
entries and leaves every other character unchanged — and never fails. -/
theorem c6_sanitizer_amended (no : List Char) :
    basic_adjustments no = ((no.filter fun c => c ≠ ' ').map upperChar).map substChar :=
  basic_adjustments_eq no

/-- C7: on every string accepted by `normalize` without a preference list,
`normalize` is idempotent — feeding the output back returns it unchanged
(with the same process-fixed set-iteration function `pick`). -/
theorem c7_normalize_idempotent (pick : List (List Char) → Option (List Char))
    (no t : List Char) (h : normalize pick no none = .ok t) :
    normalize pick t none = .ok t :=
  normalize_idem_aux h

theorem c7_witness :
    normalize headPick ("УУ12390".toList) none = .ok ("УУ12390".toList) :=
  c7_normalize_idempotent headPick ("YY1239O".toList) ("УУ12390".toList) (by decide)

/-- C8: with the set-iteration fallback modelled as a function `pick` of the
admissible list — fixed within a CPython process, whose string hashing is
seeded once — the result of `normalize` is determined by the input alone:
two calls with the same input, no preference list, and extensionally equal
iteration functions agree, also when the fallback choice is exercised. -/
theorem c8_determinism (pick1 pick2 : List (List Char) → Option (List Char))
    (hpick : ∀ l, pick1 l = pick2 l) (no : List Char) :
    normalize pick1 no none = normalize pick2 no none := by
  have h : pick1 = pick2 := funext hpick
  rw [h]

theorem c8_witness :
    normalize headPick ("о001тр98".toList) none =
      normalize headPick ("о001тр98".toList) none :=
  c8_determinism headPick headPick (fun _ => rfl) ("о001тр98".toList)

/-- C9: every success of `normalize` yields a string over the permitted
letter/digit union, of the same length as the sanitized input, agreeing
with the sanitized input at every position the Mask Builder classifies as
non-ambiguous. -/
theorem c9_output_shape (pick : List (List Char) → Option (List Char))
    (no : List Char) (prefer : Option (List (List Char))) (t : List Char)
    (h : normalize pick no prefer = .ok t) :
    t.all (fun c => decide (c ∈ ALLOWED_SYMBOLS)) = true ∧
    t.length = (basic_adjustments no).length ∧
    (List.range (basic_adjustments no).length).all (fun i =>
      ambiguousChar ((basic_adjustments no).getD i ' ') ||
        (t.getD i ' ' == (basic_adjustments no).getD i ' ')) = true := by
  obtain ⟨pl, m, possible, chosen, h1, h2, h3, h4, h5, hml, htl, hbound, hget⟩ :=
    normalize_ok_struct h
  have hclass := (build_mask_ok _ _ h2).2
  refine ⟨?_, htl, ?_⟩
  · rw [List.all_eq_true]
    intro c hc
    simpa using normalize_ok_chars h c hc
  · rw [List.all_eq_true]
    intro i hi
    rw [List.mem_range] at hi
    by_cases hst : m.getD i ' ' = '*'
    · simp only [Bool.or_eq_true]
      left
      have hcl := hclass i hi
      rw [hst] at hcl
      rcases classify_cases hcl with ⟨_, hamb⟩ | ⟨hx, _⟩ | ⟨hx, _⟩
      · rw [ambiguousChar]
        rcases hamb with h0 | h0 <;> rw [h0] <;> decide
      · exact absurd hx (by decide)
      · exact absurd hx (by decide)
    · simp only [Bool.or_eq_true]
      right
      have hgi := hget i (by omega)
      rw [if_neg hst] at hgi
      rw [hgi]
      exact beq_self_eq_true _

theorem c9_witness :
    (("УУ12390".toList).all (fun c => decide (c ∈ ALLOWED_SYMBOLS)) = true) ∧
    ("УУ12390".toList).length = (basic_adjustments ("YY1239O".toList)).length ∧
    (List.range (basic_adjustments ("YY1239O".toList)).length).all (fun i =>
      ambiguousChar ((basic_adjustments ("YY1239O".toList)).getD i ' ') ||
        (("УУ12390".toList).getD i ' ' ==
          (basic_adjustments ("YY1239O".toList)).getD i ' ')) = true :=
  c9_output_shape headPick ("YY1239O".toList) none ("УУ12390".toList) (by decide)

/-- C10: every format the Resolver returns has the mask's length (hence the
sanitized string's length), so the Reifier's index into the chosen format
at each ambiguous mask position is in bounds, and — every canonical format
having at least 7 slots — the Validator's third-from-last access is in
bounds. -/
theorem c10_format_lengths (fmt : List Char) (l : List (List Char)) (f : List Char)
    (hok : find_possible_formats fmt = .ok l) (hf : f ∈ l) :
    f.length = fmt.length ∧ 3 ≤ f.length ∧
    (∀ i, fmt.getD i ' ' = '*' → i < f.length) := by
  obtain ⟨hlen, hAF⟩ := find_possible_ok_shape hok hf
  refine ⟨hlen, ?_, ?_⟩
  · have h7 := allowed_formats_long f hAF
    omega
  · intro i hi
    have hilen : i < fmt.length := by
      by_contra hge
      rw [List.getD_eq_default _ _ (Nat.le_of_not_lt hge)] at hi
      exact absurd hi (by decide)
    omega

theorem c10_witness :
    ("XX99999".toList).length = ("XX9999*".toList).length :=
  (c10_format_lengths ("XX9999*".toList) [("XX99999".toList)] ("XX99999".toList)
    (by decide) (by decide)).1

end Gosnomer
